import Mathlib

/-!
# another-immersion-bot: data-update and migration scripts

A shallow embedding of `scripts/data-update/{vndb,aodb}.go` and of the mapping
functions of `scripts/immersion-bot-migration/main.go`.

Go strings are embedded as Lean `String`s (valid UTF-8 text).  The delimiters the
code looks for (tab, newline, carriage return) are single ASCII bytes, which never
occur inside a multi-byte UTF-8 sequence, so splitting by character and splitting
by byte agree.

The Go standard library pieces the code calls (`strings.Split`, `bufio.Scanner`
with its default `ScanLines` split function, `tar.Reader`, `os.File`) are embedded
from their documented behaviour, each next to the code that calls it.
-/

namespace ImmersionBot

/-! ## Errors -/

/-- The Go `error` values the embedded code can observe. -/
inductive GoError where
  /-- `io.EOF`: the normal end of a stream. -/
  | EOF
  /-- `io.ErrUnexpectedEOF`: a stream that ends inside a frame or member. -/
  | ErrUnexpectedEOF
  /-- `bufio.ErrTooLong`: a token that does not fit the scanner buffer. -/
  | ErrTooLong
  /-- Any other error, with its message. -/
  | other (msg : String)
  /-- A `*url.Error`, as `http.Client` returns its failures: the operation, the URL and
  the cause. -/
  | urlError (op : String) (url : String) (err : GoError)
  deriving DecidableEq, Repr

deriving instance DecidableEq for Except

/-! ## `strings.Split` with a one-byte separator -/

/-- Puts a character in front of the first field of a split. -/
def consField (c : Char) : List (List Char) → List (List Char)
  | [] => [[c]]
  | f :: fs => (c :: f) :: fs

/-- The fields of `s` around every occurrence of `sep`: one more field than there
are separators, the empty text giving one empty field. -/
def splitChars (sep : Char) : List Char → List (List Char)
  | [] => [[]]
  | c :: cs => if c = sep then [] :: splitChars sep cs else consField c (splitChars sep cs)

/-- Embeds `strings.Split(s, sep)` for a separator of one byte. -/
def Split (s : String) (sep : Char) : List String :=
  (splitChars sep s.data).map String.mk

/-! ## `bufio.Scanner` with the default split function `ScanLines` -/

/-- An `io.Reader`: the bytes it yields, and the error that ends it (`io.EOF` for a
stream that ends normally). -/
structure Reader where
  data : String
  err : GoError
  deriving DecidableEq, Repr

/-- The constant `bufio.MaxScanTokenSize`: the largest buffer a `Scanner` allocates. -/
def MaxScanTokenSize : Nat := 64 * 1024

/-- Embeds `dropCR` of package `bufio`: removes one carriage return that ends the data. -/
def dropCR (data : List Char) : List Char :=
  if data.getLast? = some '\r' then data.dropLast else data

/-- Embeds `Scanner.Err`: `io.EOF` is not reported. -/
def scannerErr (e : GoError) : Option GoError :=
  if e = GoError.EOF then none else some e

/-- The number of bytes of the UTF-8 encoding of a text. -/
def utf8Len : List Char → Nat
  | [] => 0
  | c :: cs => c.utf8Size + utf8Len cs

/-- The run of `Scan` calls over the bytes still to come, `cur` being the bytes
buffered since the last token.  A buffer holding `MaxScanTokenSize` bytes and no
newline stops the scan with `ErrTooLong`.  A newline ends a token, which is the
buffered bytes passed through `dropCR`.  When the reader is used up its error `final`
is recorded, `ScanLines` is called with `atEOF` set and returns the buffered bytes, if
there are any, as the last token.  The result is the tokens in order and the error
the scanner is left with.  The error of the reader is taken to arrive with its last
bytes, as `tar.Reader` returns `io.EOF`: a last line without a newline that fills the
buffer exactly is then still a token, and one that cannot be held in the buffer is
`ErrTooLong`. -/
def scanAux (final : GoError) : List Char → List Char → List String × Option GoError
  | [], cur =>
    if MaxScanTokenSize < utf8Len cur then ([], some GoError.ErrTooLong)
    else if cur = [] then ([], scannerErr final)
    else ([String.mk (dropCR cur)], scannerErr final)
  | c :: cs, cur =>
    if MaxScanTokenSize ≤ utf8Len cur then ([], some GoError.ErrTooLong)
    else if c = '\n' then
      (String.mk (dropCR cur) :: (scanAux final cs []).1, (scanAux final cs []).2)
    else scanAux final cs (cur ++ [c])

/-- What a `for scanner.Scan() { ... scanner.Text() ... }` loop sees of a reader: the
successive values of `Text()`. -/
def scanTokens (r : Reader) : List String :=
  (scanAux r.err r.data.data []).1

/-- The value of `scanner.Err()` once `Scan` has returned false. -/
def scanErr (r : Reader) : Option GoError :=
  (scanAux r.err r.data.data []).2

/-! ## `vndb.go` -/

/-- The package variable `TargetFile`. -/
def TargetFile : String := "db/vn_titles"

structure VNDBEntry where
  ID : String
  Language : String
  Official : Bool
  Title : String
  Latin : String
  deriving DecidableEq, Repr

structure VNDB where
  Entries : List VNDBEntry
  deriving DecidableEq, Repr

/-- The body of the `for scanner.Scan()` loop of `DownloadVNDB` (vndb.go:77-92):
`entries` is `vndb.Entries` before the iteration, the result is `vndb.Entries`
after it. -/
def parseLine (entries : List VNDBEntry) (line : String) : List VNDBEntry :=
  let cells := Split line '\t'
  if cells.length ≠ 5 then entries
  else entries ++ [{ ID := cells.getD 0 "", Language := cells.getD 1 "",
                     Official := decide (cells.getD 2 "" = "t"),
                     Title := cells.getD 3 "", Latin := cells.getD 4 "" }]

/-- The record-parsing loop of `DownloadVNDB` (vndb.go:76-93) over the lines the
scanner delivers, starting from the empty `vndb.Entries` of vndb.go:72. -/
def parseLines (lines : List String) : List VNDBEntry :=
  lines.foldl parseLine []

/-- A member of the tar archive as `tar.Reader` presents it: the name in its header
and what reading the member yields. -/
structure TarMember where
  Name : String
  body : Reader
  deriving DecidableEq, Repr

/-- The decompressed archive as `tar.Reader` presents it: the members in stream
order, and the error `Next` returns once they are used up (`io.EOF` at the
end-of-archive marker, another error for a damaged or truncated stream). -/
structure TarStream where
  members : List TarMember
  tail : GoError
  deriving DecidableEq, Repr

/-- The header loop of `DownloadVNDB` (vndb.go:57-69) over the members `Next` has
not returned yet: `Next` is called until it fails, which is returned, or until the
header name equals `target`, which leaves the reader positioned on that member, the
members after it unread. -/
def findMember (target : String) (tail : GoError) :
    List TarMember → Except GoError (TarMember × List TarMember)
  | [] => Except.error tail
  | hdr :: rest =>
    if hdr.Name = target then Except.ok (hdr, rest) else findMember target tail rest

/-- What the network serves for `VNDBArchive`: the targets of the redirects the client
meets, the error the client returns if the request fails, the failure of
`zstd.NewReader` if it fails, and the archive the decompressed body holds. -/
structure Remote where
  redirects : List String
  transport : Option GoError
  zstdInit : Option GoError
  archive : TarStream

/-- Embeds `client.Get` with a `CheckRedirect` hook: the hook is asked about every
redirect in turn; its first error ends the request and is returned inside a
`*url.Error` that names the redirect target. -/
def clientGet (checkRedirect : String → Option GoError) (net : Remote) : Option GoError :=
  match net.redirects.findSome?
      (fun loc => (checkRedirect loc).map (GoError.urlError "Get" loc)) with
  | some err => some err
  | none => net.transport

/-- Embeds `DownloadVNDB` (vndb.go:30-96), the archive member searched for being a
parameter (the package variable `TargetFile` in the source).  The Go result
`(nil, err)` is `Except.error err`, and `(vndb, nil)` is `Except.ok vndb`. -/
def DownloadVNDBFrom (target : String) (checkRedirect : String → Option GoError)
    (net : Remote) : Except GoError VNDB :=
  match clientGet checkRedirect net with
  | some err => Except.error err
  | none =>
    match net.zstdInit with
    | some err => Except.error err
    | none =>
      match findMember target net.archive.tail net.archive.members with
      | Except.error err => Except.error err
      | Except.ok (hdr, _) => Except.ok { Entries := parseLines (scanTokens hdr.body) }

/-- The function `DownloadVNDB` with the target member `TargetFile`. -/
def DownloadVNDB (checkRedirect : String → Option GoError) (net : Remote) :
    Except GoError VNDB :=
  DownloadVNDBFrom TargetFile checkRedirect net

/-! ## The sink: `os.Create` and `File.WriteString` -/

/-- An open `os.File` used as a sink: the strings written to it so far, oldest first,
and the number of bytes the device still accepts (`none` when it never refuses). -/
structure File where
  writes : List String
  room : Option Nat
  deriving DecidableEq, Repr

/-- The bytes of the file. -/
def File.content (file : File) : String :=
  String.join file.writes

/-- The leading characters of a text whose UTF-8 encoding fits in `n` bytes. -/
def takeBytes : Nat → List Char → List Char
  | _, [] => []
  | n, c :: cs => if c.utf8Size ≤ n then c :: takeBytes (n - c.utf8Size) cs else []

/-- Embeds `file.WriteString(s)`: the file afterwards and the error returned.  A string
the device has room for is written whole.  Of a string it has no room for, the
leading bytes that fit are written, as a write of their own when there are any, the
device is then full, and an error is returned.  (When the cut falls inside a
character of several bytes, the file also receives the first bytes of that
character; they are not text and are left out here.) -/
def File.WriteString (file : File) (s : String) : File × Option GoError :=
  match file.room with
  | none => ({ file with writes := file.writes ++ [s] }, none)
  | some n =>
    if s.utf8ByteSize ≤ n then
      ({ writes := file.writes ++ [s], room := some (n - s.utf8ByteSize) }, none)
    else
      ({ writes :=
           if takeBytes n s.data = [] then file.writes
           else file.writes ++ [String.mk (takeBytes n s.data)],
         room := some 0 },
       some (GoError.other "no space left on device"))

/-- The file system as `os.Create` sees it: for every path, the error creating it
runs into, if any, and the room of the device behind it. -/
structure FileSystem where
  createErr : String → Option GoError
  room : String → Option Nat

/-- Embeds `os.Create(path)`: an error, or the file, created or truncated, empty. -/
def FileSystem.Create (fs : FileSystem) (path : String) : Except GoError File :=
  match fs.createErr path with
  | some err => Except.error err
  | none => Except.ok { writes := [], room := fs.room path }

/-- What a call of `WriteTitleFile` leaves behind: the error it returns (`none` for
nil) and the file at `path` (`none` when it was not created). -/
structure WriteResult where
  err : Option GoError
  sink : Option File
  deriving DecidableEq, Repr

/-- The body of the loop of `(*VNDB).WriteTitleFile` (vndb.go:107-113): `file` before
the iteration, the result is `file` after it.  What `WriteString` returns is dropped,
as in the source. -/
def VNDB.writeTitle (file : File) (vn : VNDBEntry) : File :=
  if vn.Language ≠ "en" then file
  else (file.WriteString (vn.Title ++ "\n")).1

/-- Embeds `(*VNDB).WriteTitleFile` (vndb.go:98-116). -/
def VNDB.WriteTitleFile (db : VNDB) (fs : FileSystem) (path : String) : WriteResult :=
  match fs.Create path with
  | Except.error err => { err := some err, sink := none }
  | Except.ok file => { err := none, sink := some (db.Entries.foldl VNDB.writeTitle file) }

/-! ## `aodb.go` -/

structure AODBLicense where
  Name : String
  URL : String
  deriving DecidableEq, Repr

structure AODBAnime where
  Title : String
  deriving DecidableEq, Repr

structure AODB where
  License : AODBLicense
  LastUpdated : String
  Data : List AODBAnime
  deriving DecidableEq, Repr

/-- The body of the loop of `(*AODB).WriteTitleFile` (aodb.go:79-81); what
`WriteString` returns is dropped, as in the source. -/
def AODB.writeTitle (file : File) (anime : AODBAnime) : File :=
  (file.WriteString (anime.Title ++ "\n")).1

/-- Embeds `(*AODB).WriteTitleFile` (aodb.go:70-84). -/
def AODB.WriteTitleFile (db : AODB) (fs : FileSystem) (path : String) : WriteResult :=
  match fs.Create path with
  | Except.error err => { err := some err, sink := none }
  | Except.ok file => { err := none, sink := some (db.Data.foldl AODB.writeTitle file) }

/-! ## `immersion-bot-migration/main.go` -/

structure SqliteEntry where
  UserId : Int
  Amount : Float
  Note : Option String
  MediaType : String
  CreatedAt : Int

structure MongoDbEntry where
  UserId : String
  Name : String
  Duration : Float
  /-- The field `Type` of the source. -/
  Type_ : String
  Date : Int
  Url : Option String
  Tags : Option (List String)

structure BasicYoutubeInfo where
  Title : String

/-- Embeds `fmt.Errorf("unknown media type: %s", mediaType)`. -/
def unknownMediaType (mediaType : String) : GoError :=
  GoError.other ("unknown media type: " ++ mediaType)

/-- Embeds `mapPointsToMinutes` (main.go:44-64); a `fallthrough` case carries the
result of the case it falls into. -/
def mapPointsToMinutes (mediaType : String) (points : Float) : Except GoError Float :=
  match mediaType with
  | "READING" => Except.ok (points / 350)
  | "VN" => Except.ok (points / 350)
  | "MANGA" => Except.ok (points / 3)
  | "ANIME" => Except.ok (points * 24)
  | "BOOK" => Except.ok points
  | "READTIME" => Except.ok points
  | "LISTENING" => Except.ok points
  | _ => Except.error (unknownMediaType mediaType)

/-- Embeds `mapMediaTypeToMajorType` (main.go:66-85). -/
def mapMediaTypeToMajorType (mediaType : String) : Except GoError String :=
  match mediaType with
  | "READTIME" => Except.ok "reading"
  | "VN" => Except.ok "reading"
  | "READING" => Except.ok "reading"
  | "MANGA" => Except.ok "reading"
  | "BOOK" => Except.ok "reading"
  | "ANIME" => Except.ok "listening"
  | "LISTENING" => Except.ok "listening"
  | _ => Except.error (unknownMediaType mediaType)

/-- Embeds `isUrl` (main.go:87-89): more than 4 bytes, the first 4 being `http`.  The
four bytes of `http` are ASCII, so the first 4 bytes are `http` exactly when the first
4 characters are. -/
def isUrl (potentialUrl : String) : Bool :=
  decide (potentialUrl.utf8ByteSize > 4) && (potentialUrl.take 4 == "http")

/-- What the migration asks of the outside: `url.Parse`, as the `Host` of the parsed
URL (`none` when parsing fails), and the `yt-dlp --get-title` command, as its output
(`none` when the command fails). -/
structure Outside where
  urlHost : String → Option String
  ytTitle : String → Option String

/-- Embeds `isYoutubeUrl` (main.go:91-95). -/
def isYoutubeUrl (out : Outside) (potentialUrl : String) : Bool :=
  isUrl potentialUrl &&
    (match out.urlHost potentialUrl with
     | some host => host == "youtu.be" || host == "youtube.com"
     | none => false)

/-- Embeds `getTagsFromNoteOrMediaType` (main.go:97-115). -/
def getTagsFromNoteOrMediaType (out : Outside) (note mediaType : String) : List String :=
  let tags : List String := []
  let tags := if isYoutubeUrl out note then tags ++ ["youtube"] else tags
  if mediaType = "VN" then tags ++ ["vn"]
  else if mediaType = "MANGA" then tags ++ ["manga"]
  else if mediaType = "BOOK" then tags ++ ["book"]
  else if mediaType = "ANIME" then tags ++ ["anime"]
  else tags

/-- Embeds `mapPotentialUrlToUrl` (main.go:117-123). -/
def mapPotentialUrlToUrl (potentialUrl : String) : Option String :=
  if isUrl potentialUrl then some potentialUrl else none

/-- Embeds `getBasicYoutubeInfo` (main.go:125-138). -/
def getBasicYoutubeInfo (out : Outside) (url : String) : Option BasicYoutubeInfo :=
  match out.ytTitle url with
  | none => none
  | some title => some { Title := title }

/-- Embeds `mapSqliteEntryToMongoDbEntry` (main.go:181-233), the printing left out. -/
def mapSqliteEntryToMongoDbEntry (out : Outside) (sqliteEntry : SqliteEntry) :
    Except GoError MongoDbEntry :=
  let note : String := match sqliteEntry.Note with
    | some n => n
    | none => ""
  let userId := toString sqliteEntry.UserId
  let name := if note.utf8ByteSize > 0 then note else sqliteEntry.MediaType
  match mapPointsToMinutes sqliteEntry.MediaType sqliteEntry.Amount with
  | Except.error err => Except.error err
  | Except.ok duration =>
    match mapMediaTypeToMajorType sqliteEntry.MediaType with
    | Except.error err => Except.error err
    | Except.ok entryType =>
      let url := mapPotentialUrlToUrl note
      let tags := getTagsFromNoteOrMediaType out note sqliteEntry.MediaType
      let name := match url with
        | none => name
        | some u =>
          if isYoutubeUrl out u then
            match getBasicYoutubeInfo out u with
            | some info => info.Title
            | none => name
          else name
      Except.ok { UserId := userId, Name := name, Duration := duration, Type_ := entryType,
                  Date := sqliteEntry.CreatedAt, Url := url, Tags := some tags }

/-! ## Definitions that follow the wording of the specification -/

/-- The newline-delimited lines of a text: the pieces that end at a newline, and the
piece after the last newline when it is not empty. -/
def linesOfChars : List Char → List (List Char)
  | [] => []
  | c :: cs => if c = '\n' then [] :: linesOfChars cs else consField c (linesOfChars cs)

/-- The newline-delimited lines of a text. -/
def textLines (text : String) : List String :=
  (linesOfChars text.data).map String.mk

/-- A line without the carriage return that ends it, if one does. -/
def withoutCR (line : String) : String :=
  String.mk (dropCR line.data)

/-- The record of a line that has exactly 5 tab-separated fields, none for any other
line. -/
def recordOfLine (line : String) : Option VNDBEntry :=
  match Split line '\t' with
  | [f0, f1, f2, f3, f4] =>
    some { ID := f0, Language := f1, Official := decide (f2 = "t"), Title := f3, Latin := f4 }
  | _ => none

/-- The records of a text with every field verbatim: the records of its
newline-delimited lines that have exactly 5 tab-separated fields, in order. -/
def verbatimRecords (text : String) : List VNDBEntry :=
  (textLines text).filterMap recordOfLine

/-- The media types the migration knows. -/
def knownMediaTypes : List String :=
  ["READING", "VN", "MANGA", "ANIME", "BOOK", "READTIME", "LISTENING"]

/-! ## Concrete inputs -/

/-- A hook that allows every redirect. -/
def allowRedirect : String → Option GoError :=
  fun _ => none

/-- A well-formed archive with the members "a", "target" and "b", in that order. -/
def threeMembers : Remote :=
  { redirects := [], transport := none, zstdInit := none,
    archive :=
      { members :=
          [⟨"a", ⟨"x1\ten\tt\tAaa\taaa\n", GoError.EOF⟩⟩,
           ⟨"target", ⟨"v1\ten\tt\tFoo\tfoo\n", GoError.EOF⟩⟩,
           ⟨"b", ⟨"y1\ten\tt\tBbb\tbbb\n", GoError.EOF⟩⟩],
        tail := GoError.EOF } }

/-- An archive whose stream breaks off inside the member "db/vn_titles", in the
middle of its second line: reading the member yields the bytes before the break and
then fails with `io.ErrUnexpectedEOF`. -/
def truncatedArchive : Remote :=
  { redirects := [], transport := none, zstdInit := none,
    archive :=
      { members :=
          [⟨"db/vn_titles", ⟨"v1\ten\tt\tFoo\tfoo\nv2\tja", GoError.ErrUnexpectedEOF⟩⟩],
        tail := GoError.ErrUnexpectedEOF } }

/-- A file system on which every file can be created and written without limit. -/
def openDisk : FileSystem :=
  { createErr := fun _ => none, room := fun _ => none }

/-- A file system on which files can be created and the device has no room left. -/
def fullDisk : FileSystem :=
  { createErr := fun _ => none, room := fun _ => some 0 }

/-- A catalog with one entry, titled "Foo". -/
def oneAnime : AODB :=
  { License := ⟨"", ""⟩, LastUpdated := "", Data := [⟨"Foo"⟩] }

/-- A catalog with one entry whose title holds a newline, as the JSON string
"a\nb" decodes. -/
def newlineAnime : AODB :=
  { License := ⟨"", ""⟩, LastUpdated := "", Data := [⟨"a\nb"⟩] }

/-- A catalog with one entry whose title is empty. -/
def emptyTitleAnime : AODB :=
  { License := ⟨"", ""⟩, LastUpdated := "", Data := [⟨""⟩] }

/-- A catalog with three entries. -/
def threeAnime : AODB :=
  { License := ⟨"", ""⟩, LastUpdated := "", Data := [⟨"Foo"⟩, ⟨"Bar"⟩, ⟨"Baz"⟩] }

/-- The run of the parser of `DownloadVNDB` (vndb.go:74-93) over a member whose
content is `text` and ends normally. -/
def parseText (text : String) : List VNDBEntry :=
  parseLines (scanTokens ⟨text, GoError.EOF⟩)

/-! ## Facts about the embedded library functions -/

theorem splitChars_ne_nil (sep : Char) (s : List Char) : splitChars sep s ≠ [] := by
  cases s with
  | nil => simp [splitChars]
  | cons c cs =>
    unfold splitChars
    split
    · simp
    · cases splitChars sep cs <;> simp [consField]

/-- Joining the fields of a split with the separator gives the text back. -/
theorem intercalate_splitChars (sep : Char) (s : List Char) :
    [sep].intercalate (splitChars sep s) = s := by
  induction s with
  | nil => simp [splitChars, List.intercalate]
  | cons c cs ih =>
    unfold splitChars
    have hne := splitChars_ne_nil sep cs
    split
    · next h =>
      cases hs : splitChars sep cs with
      | nil => exact absurd hs hne
      | cons f fs =>
        rw [hs] at ih
        subst h
        simpa [List.intercalate, List.intersperse] using ih
    · cases hs : splitChars sep cs with
      | nil => exact absurd hs hne
      | cons f fs =>
        rw [hs] at ih
        cases fs with
        | nil => simpa [consField, List.intercalate, List.intersperse] using ih
        | cons g gs => simpa [consField, List.intercalate, List.intersperse] using ih

/-- No field of a split holds the separator. -/
theorem not_mem_of_mem_splitChars (sep : Char) (s : List Char) :
    ∀ f ∈ splitChars sep s, sep ∉ f := by
  induction s with
  | nil => simp [splitChars]
  | cons c cs ih =>
    unfold splitChars
    split
    · intro f hf
      rcases List.mem_cons.1 hf with rfl | hf
      · simp
      · exact ih f hf
    · next hc =>
      cases hs : splitChars sep cs with
      | nil => simp [consField, Ne.symm hc]
      | cons g gs =>
        rw [hs] at ih
        intro f hf
        simp only [consField, List.mem_cons] at hf
        rcases hf with rfl | hf
        · have := ih g (by simp)
          simp [Ne.symm hc, this]
        · exact ih f (by simp [hf])

theorem utf8Len_append (a b : List Char) : utf8Len (a ++ b) = utf8Len a + utf8Len b := by
  induction a with
  | nil => simp [utf8Len]
  | cons c cs ih => simp [utf8Len, ih, Nat.add_assoc]

theorem linesOfChars_cons_ne_nil (c : Char) (cs : List Char) : linesOfChars (c :: cs) ≠ [] := by
  unfold linesOfChars
  split
  · simp
  · cases linesOfChars cs <;> simp [consField]

/-- The lines of a text that starts with a piece free of newlines: the piece is glued
to the first line of the rest. -/
theorem linesOfChars_append (cur t : List Char) (hcur : '\n' ∉ cur) :
    linesOfChars (cur ++ t) =
      match linesOfChars t with
      | [] => if cur = [] then [] else [cur]
      | l :: ls => (cur ++ l) :: ls := by
  induction cur with
  | nil =>
    simp only [List.nil_append]
    cases h : linesOfChars t <;> simp
  | cons a cur ih =>
    have ha : a ≠ '\n' := fun h => hcur (by simp [h])
    have hc : '\n' ∉ cur := fun h => hcur (by simp [h])
    have ih := ih hc
    have hstep : linesOfChars (a :: cur ++ t) = consField a (linesOfChars (cur ++ t)) := by
      simp [linesOfChars, ha]
    rw [hstep, ih]
    cases h : linesOfChars t with
    | nil => by_cases h2 : cur = [] <;> simp [h2, consField]
    | cons l ls => simp [consField]

/-- The scanner refines the line splitting of the specification: when no line reaches
`MaxScanTokenSize` bytes, the tokens are the lines, each passed through `dropCR`, and
the scanner ends with the error of the reader. -/
theorem scanAux_eq (final : GoError) (s : List Char) :
    ∀ cur : List Char, '\n' ∉ cur →
      (∀ l ∈ linesOfChars (cur ++ s), utf8Len l < MaxScanTokenSize) →
      scanAux final s cur =
        ((linesOfChars (cur ++ s)).map (fun l => String.mk (dropCR l)), scannerErr final) := by
  induction s with
  | nil =>
    intro cur hcur hlen
    have happ := linesOfChars_append cur [] hcur
    simp only [linesOfChars] at happ
    by_cases hc : cur = []
    · subst hc
      simp [scanAux, linesOfChars, utf8Len, MaxScanTokenSize]
    · rw [if_neg hc] at happ
      have hl : utf8Len cur < MaxScanTokenSize := by
        apply hlen
        rw [happ]
        simp
      have hl2 : ¬ MaxScanTokenSize < utf8Len cur := by omega
      rw [happ]
      simp only [List.append_nil] at *
      simp [scanAux, hl2, hc]
  | cons c cs ih =>
    intro cur hcur hlen
    have happ := linesOfChars_append cur (c :: cs) hcur
    have hl2 : ¬ MaxScanTokenSize ≤ utf8Len cur := by
      cases hls : linesOfChars (c :: cs) with
      | nil => exact absurd hls (linesOfChars_cons_ne_nil c cs)
      | cons l ls =>
        rw [hls] at happ
        have := hlen (cur ++ l) (by rw [happ]; simp)
        rw [utf8Len_append] at this
        omega
    by_cases hc : c = '\n'
    · subst hc
      simp only [linesOfChars, if_true] at happ
      rw [happ] at hlen ⊢
      have ih0 := ih [] (by simp) (by
        intro l hl
        exact hlen l (by simp at hl ⊢; exact Or.inr hl))
      simp only [List.nil_append] at ih0
      simp [scanAux, hl2, ih0]
    · have ih1 := ih (cur ++ [c]) (by
        intro h
        rcases List.mem_append.1 h with h | h
        · exact hcur h
        · simp at h; exact hc h.symm) (by simpa using hlen)
      simp only [List.append_assoc, List.singleton_append] at ih1
      simp [scanAux, hl2, hc, ih1]

theorem length_consField (c : Char) (fs : List (List Char)) (h : fs ≠ []) :
    (consField c fs).length = fs.length := by
  cases fs with
  | nil => exact absurd rfl h
  | cons f fs => rfl

/-- A split has one field more than the text has separators. -/
theorem length_splitChars (sep : Char) (s : List Char) :
    (splitChars sep s).length = s.count sep + 1 := by
  induction s with
  | nil => simp [splitChars]
  | cons c cs ih =>
    unfold splitChars
    split
    · next h => subst h; simp [ih]
    · next h =>
      rw [length_consField c _ (splitChars_ne_nil sep cs), ih]
      simp [List.count_cons, h]

/-- The loop body appends the record of the line, if the line has one. -/
theorem parseLine_eq (entries : List VNDBEntry) (line : String) :
    parseLine entries line = entries ++ (recordOfLine line).toList := by
  unfold parseLine recordOfLine
  rcases h : Split line '\t' with _ | ⟨a, _ | ⟨b, _ | ⟨c, _ | ⟨d, _ | ⟨e, _ | ⟨f, r⟩⟩⟩⟩⟩⟩ <;> simp

theorem foldl_parseLine (lines : List String) :
    ∀ entries : List VNDBEntry,
      lines.foldl parseLine entries = entries ++ lines.filterMap recordOfLine := by
  induction lines with
  | nil => simp
  | cons l ls ih =>
    intro entries
    rw [List.foldl_cons, ih, parseLine_eq]
    cases h : recordOfLine l <;> simp [List.filterMap_cons, h]

/-- The loop collects the records of the lines that have one, in order. -/
theorem parseLines_eq (lines : List String) :
    parseLines lines = lines.filterMap recordOfLine := by
  simp [parseLines, foldl_parseLine]

theorem findMember_none (target : String) (tail : GoError) (members : List TarMember)
    (h : ∀ m ∈ members, m.Name ≠ target) :
    findMember target tail members = Except.error tail := by
  induction members with
  | nil => rfl
  | cons m ms ih =>
    have hm : m.Name ≠ target := h m (by simp)
    simp only [findMember, if_neg hm]
    exact ih (fun x hx => h x (by simp [hx]))

theorem findMember_first (target : String) (tail : GoError) (pre : List TarMember)
    (m : TarMember) (post : List TarMember)
    (hpre : ∀ x ∈ pre, x.Name ≠ target) (hm : m.Name = target) :
    findMember target tail (pre ++ m :: post) = Except.ok (m, post) := by
  induction pre with
  | nil => simp [findMember, hm]
  | cons x xs ih =>
    have hx : x.Name ≠ target := hpre x (by simp)
    simp only [List.cons_append, findMember, if_neg hx]
    exact ih (fun y hy => hpre y (by simp [hy]))

theorem findMember_ok_mem (target : String) (tail : GoError) (members : List TarMember)
    (m : TarMember) (post : List TarMember)
    (h : findMember target tail members = Except.ok (m, post)) :
    m ∈ members ∧ m.Name = target := by
  induction members with
  | nil => simp [findMember] at h
  | cons x xs ih =>
    by_cases hx : x.Name = target
    · simp only [findMember, if_pos hx, Except.ok.injEq, Prod.mk.injEq] at h
      rw [← h.1]
      exact ⟨by simp, hx⟩
    · simp only [findMember, if_neg hx] at h
      exact ⟨by simp [(ih h).1], (ih h).2⟩

theorem findMember_of_mem (target : String) (tail : GoError) (members : List TarMember)
    (m : TarMember) (hm : m ∈ members) (hname : m.Name = target) :
    ∃ p, findMember target tail members = Except.ok p := by
  induction members with
  | nil => simp at hm
  | cons x xs ih =>
    by_cases hx : x.Name = target
    · exact ⟨(x, xs), by simp [findMember, hx]⟩
    · simp only [findMember, if_neg hx]
      rcases List.mem_cons.1 hm with rfl | hm
      · exact absurd hname hx
      · exact ih hm

/-- Once the request and the decompressor are set up, `DownloadVNDB` is decided by the
header loop. -/
theorem DownloadVNDBFrom_eq (target : String) (checkRedirect : String → Option GoError)
    (net : Remote) (hget : clientGet checkRedirect net = none) (hz : net.zstdInit = none) :
    DownloadVNDBFrom target checkRedirect net =
      match findMember target net.archive.tail net.archive.members with
      | Except.error err => Except.error err
      | Except.ok (hdr, _) => Except.ok { Entries := parseLines (scanTokens hdr.body) } := by
  simp only [DownloadVNDBFrom, hget, hz]

/-! ## The record-parsing loop of `DownloadVNDB` -/

/-- C1: for every line that `strings.Split` cuts at the tab into exactly 5 fields
`[f0, f1, f2, f3, f4]`, the body of the record-parsing loop appends exactly one entry,
whose ID is `f0`, Language `f1`, Title `f3` and Latin `f4`, and whose Official flag is
true if and only if `f2` is exactly the string "t". -/
theorem parseLine_five_fields (entries : List VNDBEntry) (line f0 f1 f2 f3 f4 : String)
    (h : Split line '\t' = [f0, f1, f2, f3, f4]) :
    ∃ entry : VNDBEntry, parseLine entries line = entries ++ [entry] ∧
      entry.ID = f0 ∧ entry.Language = f1 ∧ entry.Title = f3 ∧ entry.Latin = f4 ∧
      (entry.Official = true ↔ f2 = "t") := by
  refine ⟨⟨f0, f1, decide (f2 = "t"), f3, f4⟩, ?_, rfl, rfl, rfl, rfl, by simp⟩
  simp [parseLine, h]

/-- The line "v1 en T Foo foo" (tab-separated) has 5 fields and yields one entry;
its flag "T" is not "t", so the entry is not official. -/
theorem parseLine_five_fields_witness :
    Split "v1\ten\tT\tFoo\tfoo" '\t' = ["v1", "en", "T", "Foo", "foo"] ∧
    ∃ entry : VNDBEntry, parseLine [] "v1\ten\tT\tFoo\tfoo" = [] ++ [entry] ∧
      entry.ID = "v1" ∧ entry.Language = "en" ∧ entry.Title = "Foo" ∧ entry.Latin = "foo" ∧
      (entry.Official = true ↔ "T" = "t") :=
  ⟨by decide, parseLine_five_fields [] "v1\ten\tT\tFoo\tfoo" "v1" "en" "T" "Foo" "foo" (by decide)⟩

/-- C2: a line whose tab-split field count is not 5 adds no entry, and the loop goes
on: the entries accumulated over lines that hold such a line are the entries
accumulated over the same lines without it.  The loop has no error to report: its
only result is the entry sequence. -/
theorem parseLines_skips_line (entries : List VNDBEntry) (pre post : List String)
    (line : String) (h : (Split line '\t').length ≠ 5) :
    parseLine entries line = entries ∧
      parseLines (pre ++ line :: post) = parseLines (pre ++ post) := by
  have hstep : ∀ acc : List VNDBEntry, parseLine acc line = acc := by
    intro acc
    simp [parseLine, h]
  refine ⟨hstep entries, ?_⟩
  simp only [parseLines, List.foldl_append, List.foldl_cons, hstep]

/-- A line of 3 fields between two well-formed lines is skipped and the line after it
is still parsed. -/
theorem parseLines_skips_line_witness :
    (Split "a\tb\tc" '\t').length ≠ 5 ∧
    parseLine [⟨"v1", "en", true, "Foo", "foo"⟩] "a\tb\tc" = [⟨"v1", "en", true, "Foo", "foo"⟩] ∧
    parseLines (["v1\ten\tt\tFoo\tfoo"] ++ "a\tb\tc" :: ["v2\tja\tf\tBar\tbar"]) =
      parseLines (["v1\ten\tt\tFoo\tfoo"] ++ ["v2\tja\tf\tBar\tbar"]) :=
  ⟨by decide,
   parseLines_skips_line [⟨"v1", "en", true, "Foo", "foo"⟩] ["v1\ten\tt\tFoo\tfoo"]
     ["v2\tja\tf\tBar\tbar"] "a\tb\tc" (by decide)⟩

/-! ## The member scan of `DownloadVNDB` -/

/-- C8: with the request and the decompressor set up, `DownloadVNDB` succeeds if and
only if some member of the archive has the target name; when it does, the header loop
stops on the first such member, leaving the members after it unread, and the entries
are parsed from that member alone; when no member has the target name, the loop runs
through every header and `DownloadVNDB` returns the error `Next` gives at the end of
the archive, and no dataset.  This holds for every target name, "db/vn_titles"
included. -/
theorem DownloadVNDBFrom_member_scan (target : String)
    (checkRedirect : String → Option GoError) (net : Remote)
    (hget : clientGet checkRedirect net = none) (hz : net.zstdInit = none) :
    ((∃ vndb, DownloadVNDBFrom target checkRedirect net = Except.ok vndb) ↔
        ∃ m ∈ net.archive.members, m.Name = target) ∧
    (∀ pre m post, net.archive.members = pre ++ m :: post →
        (∀ x ∈ pre, x.Name ≠ target) → m.Name = target →
        findMember target net.archive.tail net.archive.members = Except.ok (m, post) ∧
        DownloadVNDBFrom target checkRedirect net =
          Except.ok { Entries := parseLines (scanTokens m.body) }) ∧
    ((∀ m ∈ net.archive.members, m.Name ≠ target) →
        findMember target net.archive.tail net.archive.members =
          Except.error net.archive.tail ∧
        DownloadVNDBFrom target checkRedirect net = Except.error net.archive.tail) := by
  have heq := DownloadVNDBFrom_eq target checkRedirect net hget hz
  refine ⟨⟨?_, ?_⟩, ?_, ?_⟩
  · rintro ⟨vndb, hv⟩
    rw [heq] at hv
    cases hf : findMember target net.archive.tail net.archive.members with
    | error e => rw [hf] at hv; simp at hv
    | ok p =>
      obtain ⟨m, post⟩ := p
      exact ⟨m, findMember_ok_mem target _ _ m post hf⟩
  · rintro ⟨m, hm, hname⟩
    obtain ⟨p, hf⟩ := findMember_of_mem target net.archive.tail net.archive.members m hm hname
    rw [heq, hf]
    exact ⟨_, rfl⟩
  · intro pre m post hmem hpre hm
    have hf := findMember_first target net.archive.tail pre m post hpre hm
    rw [← hmem] at hf
    exact ⟨hf, by rw [heq, hf]⟩
  · intro hall
    have hf := findMember_none target net.archive.tail net.archive.members hall
    exact ⟨hf, by rw [heq, hf]⟩

/-- The archive with members "a", "target", "b" searched for "target": the loop stops
on "target" with "b" unread, and the entries are those of the content of "target". -/
theorem DownloadVNDBFrom_member_scan_witness :
    clientGet allowRedirect threeMembers = none ∧ threeMembers.zstdInit = none ∧
    parseLines (scanTokens ⟨"v1\ten\tt\tFoo\tfoo\n", GoError.EOF⟩) =
      [⟨"v1", "en", true, "Foo", "foo"⟩] ∧
    findMember "target" threeMembers.archive.tail threeMembers.archive.members =
      Except.ok (⟨"target", ⟨"v1\ten\tt\tFoo\tfoo\n", GoError.EOF⟩⟩,
        [⟨"b", ⟨"y1\ten\tt\tBbb\tbbb\n", GoError.EOF⟩⟩]) ∧
    DownloadVNDBFrom "target" allowRedirect threeMembers =
      Except.ok { Entries := parseLines (scanTokens ⟨"v1\ten\tt\tFoo\tfoo\n", GoError.EOF⟩) } :=
  ⟨by decide, by decide, by decide,
   (DownloadVNDBFrom_member_scan "target" allowRedirect threeMembers (by decide) (by decide)).2.1
     [⟨"a", ⟨"x1\ten\tt\tAaa\taaa\n", GoError.EOF⟩⟩]
     ⟨"target", ⟨"v1\ten\tt\tFoo\tfoo\n", GoError.EOF⟩⟩
     [⟨"b", ⟨"y1\ten\tt\tBbb\tbbb\n", GoError.EOF⟩⟩] rfl (by decide) rfl⟩

/-! ## A read failure inside the target member -/

/-- C5, the code at a failing input: the stream breaks off inside "db/vn_titles".
The scanner is left with `io.ErrUnexpectedEOF`, which the code never asks for, and
`DownloadVNDB` returns, with a nil error, a dataset holding the one record read
before the break. -/
theorem DownloadVNDB_truncated_member :
    scanErr ⟨"v1\ten\tt\tFoo\tfoo\nv2\tja", GoError.ErrUnexpectedEOF⟩ =
      some GoError.ErrUnexpectedEOF ∧
    DownloadVNDB allowRedirect truncatedArchive =
      Except.ok { Entries := [⟨"v1", "en", true, "Foo", "foo"⟩] } := by
  decide

/-! ## The migration -/

theorem mapPointsToMinutes_ok_iff (m : String) (points : Float) :
    (∃ minutes, mapPointsToMinutes m points = Except.ok minutes) ↔ m ∈ knownMediaTypes := by
  unfold mapPointsToMinutes knownMediaTypes
  split <;> simp_all

theorem mapPointsToMinutes_error_iff (m : String) (points : Float) :
    (∃ err, mapPointsToMinutes m points = Except.error err) ↔ m ∉ knownMediaTypes := by
  unfold mapPointsToMinutes knownMediaTypes
  split <;> simp_all

theorem mapMediaTypeToMajorType_ok_iff (m : String) :
    (∃ major, mapMediaTypeToMajorType m = Except.ok major) ↔ m ∈ knownMediaTypes := by
  unfold mapMediaTypeToMajorType knownMediaTypes
  split <;> simp_all

theorem mapMediaTypeToMajorType_error_iff (m : String) :
    (∃ err, mapMediaTypeToMajorType m = Except.error err) ↔ m ∉ knownMediaTypes := by
  unfold mapMediaTypeToMajorType knownMediaTypes
  split <;> simp_all

/-- C10: `mapPointsToMinutes` fails exactly when `mapMediaTypeToMajorType` fails; both
succeed exactly for the media types READING, VN, MANGA, ANIME, BOOK, READTIME and
LISTENING; the major type is "listening" exactly for ANIME and LISTENING and
"reading" exactly for the other five; and `mapSqliteEntryToMongoDbEntry` fails
exactly when the media type of the entry is not one of the seven. -/
theorem media_type_errors_agree (m : String) (points : Float) :
    ((∃ err, mapPointsToMinutes m points = Except.error err) ↔
        ∃ err, mapMediaTypeToMajorType m = Except.error err) ∧
    ((∃ minutes, mapPointsToMinutes m points = Except.ok minutes) ↔ m ∈ knownMediaTypes) ∧
    ((∃ major, mapMediaTypeToMajorType m = Except.ok major) ↔ m ∈ knownMediaTypes) ∧
    (mapMediaTypeToMajorType m = Except.ok "listening" ↔ m = "ANIME" ∨ m = "LISTENING") ∧
    (mapMediaTypeToMajorType m = Except.ok "reading" ↔
        m = "READING" ∨ m = "VN" ∨ m = "MANGA" ∨ m = "BOOK" ∨ m = "READTIME") ∧
    (∀ (out : Outside) (entry : SqliteEntry),
        ((∃ err, mapSqliteEntryToMongoDbEntry out entry = Except.error err) ↔
          entry.MediaType ∉ knownMediaTypes)) := by
  refine ⟨by rw [mapPointsToMinutes_error_iff, mapMediaTypeToMajorType_error_iff],
    mapPointsToMinutes_ok_iff m points, mapMediaTypeToMajorType_ok_iff m, ?_, ?_, ?_⟩
  · unfold mapMediaTypeToMajorType
    split <;> simp_all
  · unfold mapMediaTypeToMajorType
    split <;> simp_all
  · intro out entry
    unfold mapSqliteEntryToMongoDbEntry
    cases h1 : mapPointsToMinutes entry.MediaType entry.Amount with
    | error e =>
      have hn := (mapPointsToMinutes_error_iff entry.MediaType entry.Amount).1 ⟨e, h1⟩
      simp [hn]
    | ok d =>
      have hk := (mapPointsToMinutes_ok_iff entry.MediaType entry.Amount).1 ⟨d, h1⟩
      cases h2 : mapMediaTypeToMajorType entry.MediaType with
      | error e2 =>
        exact absurd hk ((mapMediaTypeToMajorType_error_iff entry.MediaType).1 ⟨e2, h2⟩)
      | ok t => simp [hk]

/-! ## `WriteTitleFile` -/

theorem foldl_VNDB_writeTitle (entries : List VNDBEntry) :
    ∀ ws : List String,
      entries.foldl VNDB.writeTitle ⟨ws, none⟩ =
        ⟨ws ++ (entries.filter (fun vn => decide (vn.Language = "en"))).map
          (fun vn => vn.Title ++ "\n"), none⟩ := by
  induction entries with
  | nil => simp
  | cons vn rest ih =>
    intro ws
    by_cases h : vn.Language = "en"
    · simp [List.foldl_cons, VNDB.writeTitle, File.WriteString, h, ih]
    · simp [List.foldl_cons, VNDB.writeTitle, h, ih]

theorem foldl_AODB_writeTitle (data : List AODBAnime) :
    ∀ ws : List String,
      data.foldl AODB.writeTitle ⟨ws, none⟩ =
        ⟨ws ++ data.map (fun anime => anime.Title ++ "\n"), none⟩ := by
  induction data with
  | nil => simp
  | cons a rest ih =>
    intro ws
    simp [List.foldl_cons, AODB.writeTitle, File.WriteString, ih]

/-- C3: on a sink that is created and accepts every write, `VNDB.WriteTitleFile`
writes exactly the titles of the entries whose Language is "en", one line each, in the
order of `Entries`, without removing duplicates; whether an entry is written depends
on its Language alone. -/
theorem VNDB_WriteTitleFile_titles (db : VNDB) (fs : FileSystem) (path : String)
    (hcreate : fs.createErr path = none) (hroom : fs.room path = none) :
    db.WriteTitleFile fs path =
      { err := none,
        sink := some
          { writes := (db.Entries.filter (fun vn => decide (vn.Language = "en"))).map
              (fun vn => vn.Title ++ "\n"),
            room := none } } := by
  simp [VNDB.WriteTitleFile, FileSystem.Create, hcreate, hroom, foldl_VNDB_writeTitle]

/-- The entries (1, "en", "Foo") and (2, "ja", "Bar") give the one line "Foo". -/
theorem VNDB_WriteTitleFile_titles_witness :
    openDisk.createErr "data/en.vn.vndb.txt" = none ∧
    openDisk.room "data/en.vn.vndb.txt" = none ∧
    VNDB.WriteTitleFile ⟨[⟨"1", "en", true, "Foo", "foo"⟩, ⟨"2", "ja", true, "Bar", "bar"⟩]⟩
        openDisk "data/en.vn.vndb.txt" =
      { err := none, sink := some { writes := ["Foo\n"], room := none } } :=
  ⟨rfl, rfl,
   VNDB_WriteTitleFile_titles ⟨[⟨"1", "en", true, "Foo", "foo"⟩, ⟨"2", "ja", true, "Bar", "bar"⟩]⟩
     openDisk "data/en.vn.vndb.txt" rfl rfl⟩

/-- C4, as stated, fails: the 5-field line "v1 en t  foo" (tab-separated, empty
title) is parsed into an entry with Language "en" and an empty Title, and
`VNDB.WriteTitleFile` writes that empty title as the line "\n"; `AODB.WriteTitleFile`
does the same with a catalog entry whose title is empty.  The empty string is then a
line of the sink. -/
theorem empty_title_is_written :
    parseText "v1\ten\tt\t\tfoo" = [⟨"v1", "en", true, "", "foo"⟩] ∧
    VNDB.WriteTitleFile ⟨parseText "v1\ten\tt\t\tfoo"⟩ openDisk "data/en.vn.vndb.txt" =
      { err := none, sink := some { writes := ["" ++ "\n"], room := none } } ∧
    AODB.WriteTitleFile emptyTitleAnime openDisk "data/en.anime.aodb.txt" =
      { err := none, sink := some { writes := ["" ++ "\n"], room := none } } ∧
    "" ∈ textLines (File.content { writes := ["" ++ "\n"], room := none }) := by
  decide

theorem String_append_right_cancel (t u nl : String) (h : t ++ nl = u ++ nl) : t = u := by
  apply String.ext
  have hd := congrArg String.data h
  simp only [String.data_append] at hd
  exact List.append_cancel_right hd

/-- C4, amended: on a sink that is created and accepts every write, the sink is made
of exactly the Titles of the included entries (Language "en" for the archive variant,
every entry for the catalog variant), in order, each written verbatim and followed by
a newline.  So a string is a title written to the sink exactly when it is the Title of
an included entry, and the empty string is written, as an empty line, exactly when an
included entry has an empty Title: with no such entry, no title written is empty. -/
theorem written_titles_are_entry_titles (vdb : VNDB) (adb : AODB) (fs : FileSystem)
    (path : String) (hcreate : fs.createErr path = none) (hroom : fs.room path = none) :
    ∃ vfile afile : File,
      vdb.WriteTitleFile fs path = { err := none, sink := some vfile } ∧
      adb.WriteTitleFile fs path = { err := none, sink := some afile } ∧
      vfile.writes = (vdb.Entries.filter (fun vn => decide (vn.Language = "en"))).map
        (fun vn => vn.Title ++ "\n") ∧
      afile.writes = adb.Data.map (fun anime => anime.Title ++ "\n") ∧
      (∀ title : String, title ++ "\n" ∈ vfile.writes ↔
        ∃ vn ∈ vdb.Entries, vn.Language = "en" ∧ vn.Title = title) ∧
      (∀ title : String, title ++ "\n" ∈ afile.writes ↔
        ∃ anime ∈ adb.Data, anime.Title = title) ∧
      ("" ++ "\n" ∈ vfile.writes ↔ ∃ vn ∈ vdb.Entries, vn.Language = "en" ∧ vn.Title = "") ∧
      ("" ++ "\n" ∈ afile.writes ↔ ∃ anime ∈ adb.Data, anime.Title = "") := by
  have hv : ∀ title : String,
      title ++ "\n" ∈ (vdb.Entries.filter (fun vn => decide (vn.Language = "en"))).map
        (fun vn => vn.Title ++ "\n") ↔
      ∃ vn ∈ vdb.Entries, vn.Language = "en" ∧ vn.Title = title := by
    intro title
    constructor
    · intro h
      obtain ⟨vn, hvn, heq⟩ := List.mem_map.1 h
      have hf := List.mem_filter.1 hvn
      exact ⟨vn, hf.1, by simpa using hf.2, String_append_right_cancel _ _ _ heq⟩
    · rintro ⟨vn, hvn, hl, rfl⟩
      exact List.mem_map.2 ⟨vn, List.mem_filter.2 ⟨hvn, by simpa using hl⟩, rfl⟩
  have ha : ∀ title : String,
      title ++ "\n" ∈ adb.Data.map (fun anime => anime.Title ++ "\n") ↔
      ∃ anime ∈ adb.Data, anime.Title = title := by
    intro title
    constructor
    · intro h
      obtain ⟨a, hmem, heq⟩ := List.mem_map.1 h
      exact ⟨a, hmem, String_append_right_cancel _ _ _ heq⟩
    · rintro ⟨a, hmem, rfl⟩
      exact List.mem_map.2 ⟨a, hmem, rfl⟩
  refine ⟨⟨_, none⟩, ⟨_, none⟩, ?_, ?_, rfl, rfl, hv, ha, hv "", ha ""⟩
  · simp [VNDB.WriteTitleFile, FileSystem.Create, hcreate, hroom, foldl_VNDB_writeTitle]
  · simp [AODB.WriteTitleFile, FileSystem.Create, hcreate, hroom, foldl_AODB_writeTitle]

/-- A dataset whose entries with Language "en" are titled "Foo" and "", and the
catalog with the one empty title: the empty title is a line of both sinks. -/
theorem written_titles_are_entry_titles_witness :
    openDisk.createErr "titles.txt" = none ∧ openDisk.room "titles.txt" = none ∧
    ∃ vfile afile : File,
      VNDB.WriteTitleFile
          ⟨[⟨"1", "en", true, "Foo", "foo"⟩, ⟨"2", "ja", true, "Bar", ""⟩,
            ⟨"3", "en", false, "", "baz"⟩]⟩ openDisk "titles.txt" =
        { err := none, sink := some vfile } ∧
      AODB.WriteTitleFile emptyTitleAnime openDisk "titles.txt" =
        { err := none, sink := some afile } ∧
      vfile.writes =
        (([⟨"1", "en", true, "Foo", "foo"⟩, ⟨"2", "ja", true, "Bar", ""⟩,
            ⟨"3", "en", false, "", "baz"⟩] : List VNDBEntry).filter
          (fun vn => decide (vn.Language = "en"))).map (fun vn => vn.Title ++ "\n") ∧
      afile.writes = emptyTitleAnime.Data.map (fun anime => anime.Title ++ "\n") ∧
      (∀ title : String, title ++ "\n" ∈ vfile.writes ↔
        ∃ vn ∈ ([⟨"1", "en", true, "Foo", "foo"⟩, ⟨"2", "ja", true, "Bar", ""⟩,
            ⟨"3", "en", false, "", "baz"⟩] : List VNDBEntry),
          vn.Language = "en" ∧ vn.Title = title) ∧
      (∀ title : String, title ++ "\n" ∈ afile.writes ↔
        ∃ anime ∈ emptyTitleAnime.Data, anime.Title = title) ∧
      ("" ++ "\n" ∈ vfile.writes ↔
        ∃ vn ∈ ([⟨"1", "en", true, "Foo", "foo"⟩, ⟨"2", "ja", true, "Bar", ""⟩,
            ⟨"3", "en", false, "", "baz"⟩] : List VNDBEntry),
          vn.Language = "en" ∧ vn.Title = "") ∧
      ("" ++ "\n" ∈ afile.writes ↔ ∃ anime ∈ emptyTitleAnime.Data, anime.Title = "") :=
  ⟨rfl, rfl,
   written_titles_are_entry_titles
     ⟨[⟨"1", "en", true, "Foo", "foo"⟩, ⟨"2", "ja", true, "Bar", ""⟩,
       ⟨"3", "en", false, "", "baz"⟩]⟩ emptyTitleAnime openDisk "titles.txt" rfl rfl⟩

/-- C6, the code at a failing input: the sink is created and the device has no room,
so the write of the line "Foo\n" fails; both variants of `WriteTitleFile` return nil
although the line is not in the sink. -/
theorem WriteTitleFile_drops_write_error :
    (File.WriteString ⟨[], some 0⟩ "Foo\n").2 = some (GoError.other "no space left on device") ∧
    VNDB.WriteTitleFile ⟨[⟨"v1", "en", true, "Foo", "foo"⟩]⟩ fullDisk "data/en.vn.vndb.txt" =
      { err := none, sink := some { writes := [], room := some 0 } } ∧
    AODB.WriteTitleFile oneAnime fullDisk "data/en.anime.aodb.txt" =
      { err := none, sink := some { writes := [], room := some 0 } } := by
  decide

theorem data_foldl_append (l : List String) :
    ∀ acc : String,
      (l.foldl (fun r s => r ++ s) acc).data = acc.data ++ l.flatMap String.data := by
  induction l with
  | nil => simp
  | cons s rest ih =>
    intro acc
    simp [List.foldl_cons, ih, List.flatMap_cons, List.append_assoc]

theorem data_join (l : List String) : (String.join l).data = l.flatMap String.data := by
  simp [String.join, data_foldl_append]

/-- The lines of newline-terminated pieces that hold no newline are the pieces. -/
theorem linesOfChars_terminated (ts : List (List Char)) (h : ∀ t ∈ ts, '\n' ∉ t) :
    linesOfChars (ts.flatMap (fun t => t ++ ['\n'])) = ts := by
  induction ts with
  | nil => simp [linesOfChars]
  | cons t rest ih =>
    have ht : '\n' ∉ t := h t (by simp)
    have ih := ih (fun x hx => h x (by simp [hx]))
    simp only [List.flatMap_cons, List.append_assoc, List.singleton_append]
    rw [linesOfChars_append t _ ht]
    simp [linesOfChars, ih]

/-- C7, as stated, fails: a catalog with the one title "a\nb" gives a sink with the
two lines "a" and "b", not one line equal to the title. -/
theorem AODB_title_with_newline :
    AODB.WriteTitleFile newlineAnime openDisk "data/en.anime.aodb.txt" =
      { err := none, sink := some { writes := ["a\nb\n"], room := none } } ∧
    newlineAnime.Data.length = 1 ∧
    textLines (File.content { writes := ["a\nb\n"], room := none }) = ["a", "b"] ∧
    textLines (File.content { writes := ["a\nb\n"], room := none }) ≠
      newlineAnime.Data.map (fun anime => anime.Title) := by
  decide

/-- C7, amended: for every catalog with n entries none of whose titles holds a
newline, on a sink that is created and accepts every write, `AODB.WriteTitleFile`
returns nil and leaves a sink made of one write per entry, the title followed by a
newline, in source order and nothing else; the sink has exactly n lines, the i-th
being the title of the i-th entry (an empty sink for n = 0). -/
theorem AODB_WriteTitleFile_lines (db : AODB) (fs : FileSystem) (path : String)
    (hcreate : fs.createErr path = none) (hroom : fs.room path = none)
    (hnl : ∀ anime ∈ db.Data, '\n' ∉ anime.Title.data) :
    ∃ file, db.WriteTitleFile fs path = { err := none, sink := some file } ∧
      file.writes = db.Data.map (fun anime => anime.Title ++ "\n") ∧
      textLines file.content = db.Data.map (fun anime => anime.Title) ∧
      (textLines file.content).length = db.Data.length := by
  have hlines : textLines (File.content ⟨db.Data.map (fun anime => anime.Title ++ "\n"), none⟩) =
      db.Data.map (fun anime => anime.Title) := by
    have hd : (File.content ⟨db.Data.map (fun anime => anime.Title ++ "\n"), none⟩).data =
        (db.Data.map (fun anime => anime.Title.data)).flatMap (fun t => t ++ ['\n']) := by
      simp only [File.content, data_join]
      induction db.Data with
      | nil => rfl
      | cons a rest ih => simp [List.flatMap_cons, ih]
    unfold textLines
    rw [hd, linesOfChars_terminated]
    · simp [List.map_map, Function.comp_def]
    · intro t ht
      rcases List.mem_map.1 ht with ⟨a, ha, rfl⟩
      exact hnl a ha
  refine ⟨⟨db.Data.map (fun anime => anime.Title ++ "\n"), none⟩, ?_, rfl, hlines, ?_⟩
  · simp [AODB.WriteTitleFile, FileSystem.Create, hcreate, hroom, foldl_AODB_writeTitle]
  · rw [hlines, List.length_map]

/-- A catalog with the 3 titles "Foo", "Bar", "Baz" gives a sink with exactly these
3 lines. -/
theorem AODB_WriteTitleFile_lines_witness :
    openDisk.createErr "data/en.anime.aodb.txt" = none ∧
    openDisk.room "data/en.anime.aodb.txt" = none ∧
    (∀ anime ∈ threeAnime.Data, '\n' ∉ anime.Title.data) ∧
    ∃ file, AODB.WriteTitleFile threeAnime openDisk "data/en.anime.aodb.txt" =
        { err := none, sink := some file } ∧
      file.writes = threeAnime.Data.map (fun anime => anime.Title ++ "\n") ∧
      textLines file.content = threeAnime.Data.map (fun anime => anime.Title) ∧
      (textLines file.content).length = threeAnime.Data.length :=
  ⟨rfl, rfl, by decide,
   AODB_WriteTitleFile_lines threeAnime openDisk "data/en.anime.aodb.txt" rfl rfl (by decide)⟩

/-! ## The parser of `DownloadVNDB` over a text -/

theorem utf8ByteSize_eq (s : String) : s.utf8ByteSize = utf8Len s.data := by
  have h : ∀ cs : List Char, String.utf8Len cs = utf8Len cs := by
    intro cs
    induction cs with
    | nil => rfl
    | cons c cs ih => simp [String.utf8Len_cons, utf8Len, ih, Nat.add_comm]
  cases s with
  | mk cs => simp [h]

/-- When no line of the text reaches `MaxScanTokenSize` bytes, the scanner delivers
every line of the text, without the carriage return that ends it, and stops with the
error of the reader. -/
theorem scan_eq_textLines (text : String) (final : GoError)
    (hshort : ∀ line ∈ textLines text, line.utf8ByteSize < MaxScanTokenSize) :
    scanTokens ⟨text, final⟩ = (textLines text).map withoutCR ∧
      scanErr ⟨text, final⟩ = scannerErr final := by
  have h := scanAux_eq final text.data [] (by simp) (by
    intro l hl
    have := hshort (String.mk l) (by
      unfold textLines
      exact List.mem_map.2 ⟨l, by simpa using hl, rfl⟩)
    rw [utf8ByteSize_eq] at this
    exact this)
  simp only [List.nil_append] at h
  constructor
  · simp [scanTokens, h, textLines, List.map_map, Function.comp_def, withoutCR]
  · simp [scanErr, h]

/-- The record of a line holds the fields of the line verbatim: the line is the five
fields joined by tabs, and no field holds a tab. -/
theorem recordOfLine_some (line : String) (entry : VNDBEntry)
    (h : recordOfLine line = some entry) :
    ∃ flag : String,
      line = entry.ID ++ "\t" ++ entry.Language ++ "\t" ++ flag ++ "\t" ++ entry.Title
        ++ "\t" ++ entry.Latin ∧
      (entry.Official = true ↔ flag = "t") ∧
      '\t' ∉ entry.ID.data ∧ '\t' ∉ entry.Language.data ∧ '\t' ∉ flag.data ∧
      '\t' ∉ entry.Title.data ∧ '\t' ∉ entry.Latin.data := by
  unfold recordOfLine at h
  split at h
  · next f0 f1 f2 f3 f4 heq =>
    simp only [Option.some.injEq] at h
    subst h
    have hs : splitChars '\t' line.data = [f0.data, f1.data, f2.data, f3.data, f4.data] := by
      have := congrArg (List.map String.data) heq
      simpa [Split, List.map_map, Function.comp_def] using this
    have hj := intercalate_splitChars '\t' line.data
    have hn := not_mem_of_mem_splitChars '\t' line.data
    rw [hs] at hj hn
    refine ⟨f2, ?_, by simp, hn _ (by simp), hn _ (by simp), hn _ (by simp), hn _ (by simp),
      hn _ (by simp)⟩
    apply String.ext
    rw [← hj]
    simp [List.intercalate, List.intersperse]
  · simp at h

/-- C9, as stated, fails: in the text "v1 en t Foo foo\r\n" (tab-separated) the
last field of the line runs up to the newline and is "foo\r", and the parser yields
the Latin title "foo", the carriage return removed. -/
theorem parseText_drops_carriage_return :
    parseText "v1\ten\tt\tFoo\tfoo\r\n" = [⟨"v1", "en", true, "Foo", "foo"⟩] ∧
    verbatimRecords "v1\ten\tt\tFoo\tfoo\r\n" = [⟨"v1", "en", true, "Foo", "foo\r"⟩] ∧
    parseText "v1\ten\tt\tFoo\tfoo\r\n" ≠ verbatimRecords "v1\ten\tt\tFoo\tfoo\r\n" := by
  decide

/-- C9, amended: for every member content given as text in which no line reaches
`bufio.MaxScanTokenSize` (65536) bytes, the scanner ends without an error at the end
of the text, and the entries are, in order, exactly the records of the
newline-delimited lines of the text, each taken without the one carriage return that
may end it, that have exactly 5 tab-separated fields; every field is verbatim: the
line so taken is ID, Language, flag, Title and Latin joined by tabs, no field holds a
tab, and Official is true exactly when the flag is "t". -/
theorem parseText_records (text : String)
    (hshort : ∀ line ∈ textLines text, line.utf8ByteSize < MaxScanTokenSize) :
    scanErr ⟨text, GoError.EOF⟩ = none ∧
    parseText text = ((textLines text).map withoutCR).filterMap recordOfLine ∧
    ∀ entry ∈ parseText text, ∃ line ∈ textLines text, ∃ flag : String,
      withoutCR line = entry.ID ++ "\t" ++ entry.Language ++ "\t" ++ flag ++ "\t"
        ++ entry.Title ++ "\t" ++ entry.Latin ∧
      (entry.Official = true ↔ flag = "t") ∧
      '\t' ∉ entry.ID.data ∧ '\t' ∉ entry.Language.data ∧ '\t' ∉ flag.data ∧
      '\t' ∉ entry.Title.data ∧ '\t' ∉ entry.Latin.data := by
  obtain ⟨htok, herr⟩ := scan_eq_textLines text GoError.EOF hshort
  have hparse : parseText text = ((textLines text).map withoutCR).filterMap recordOfLine := by
    rw [parseText, htok, parseLines_eq]
  refine ⟨by rw [herr]; rfl, hparse, ?_⟩
  intro entry hentry
  rw [hparse] at hentry
  obtain ⟨l, hl, hrec⟩ := List.mem_filterMap.1 hentry
  obtain ⟨line, hline, rfl⟩ := List.mem_map.1 hl
  exact ⟨line, hline, recordOfLine_some _ _ hrec⟩

/-- A text of three lines: a record ended by a carriage return and a newline, a line
of one field, and a record without a newline at the end of the text. -/
theorem parseText_records_witness :
    (∀ line ∈ textLines "v1\ten\tt\tFoo\tfoo\r\nbad line\nv2\tja\tf\tBar\tbar",
        line.utf8ByteSize < MaxScanTokenSize) ∧
    ((textLines "v1\ten\tt\tFoo\tfoo\r\nbad line\nv2\tja\tf\tBar\tbar").map withoutCR).filterMap
        recordOfLine =
      [⟨"v1", "en", true, "Foo", "foo"⟩, ⟨"v2", "ja", false, "Bar", "bar"⟩] ∧
    parseText "v1\ten\tt\tFoo\tfoo\r\nbad line\nv2\tja\tf\tBar\tbar" =
      ((textLines "v1\ten\tt\tFoo\tfoo\r\nbad line\nv2\tja\tf\tBar\tbar").map withoutCR).filterMap
        recordOfLine :=
  ⟨by decide, by decide,
   (parseText_records "v1\ten\tt\tFoo\tfoo\r\nbad line\nv2\tja\tf\tBar\tbar" (by decide)).2.1⟩

/-! ## A line that does not fit the scanner buffer -/

theorem scanAux_long_line (final : GoError) (rest : List Char) (big : List Char)
    (hnl : '\n' ∉ big) :
    ∀ cur : List Char, MaxScanTokenSize ≤ utf8Len cur + utf8Len big →
      scanAux final (big ++ '\n' :: rest) cur = ([], some GoError.ErrTooLong) := by
  induction big with
  | nil =>
    intro cur hlen
    simp only [utf8Len, Nat.add_zero] at hlen
    simp only [List.nil_append, scanAux, if_pos hlen]
  | cons c bs ih =>
    intro cur hlen
    have hc : ¬ (c = '\n') := fun h => hnl (by simp [h])
    have hbs : '\n' ∉ bs := fun h => hnl (by simp [h])
    by_cases hfull : MaxScanTokenSize ≤ utf8Len cur
    · simp only [List.cons_append, scanAux, if_pos hfull]
    · have ih1 := ih hbs (cur ++ [c]) (by
        rw [utf8Len_append]
        simp only [utf8Len] at hlen ⊢
        omega)
      simp only [List.cons_append, scanAux, if_neg hfull, if_neg hc]
      exact ih1

/-- The hypothesis on the length of the lines is needed: a first line of
`MaxScanTokenSize` bytes or more stops the scanner with `ErrTooLong`, which the code
never asks for, and no record of the text is parsed. -/
theorem scan_line_too_long (big rest : String) (final : GoError) (hnl : '\n' ∉ big.data)
    (hlen : MaxScanTokenSize ≤ big.utf8ByteSize) :
    scanErr ⟨big ++ "\n" ++ rest, final⟩ = some GoError.ErrTooLong ∧
      parseLines (scanTokens ⟨big ++ "\n" ++ rest, final⟩) = [] := by
  rw [utf8ByteSize_eq] at hlen
  have h := scanAux_long_line final rest.data big.data hnl [] (by simpa [utf8Len] using hlen)
  have hd : (big ++ "\n" ++ rest).data = big.data ++ '\n' :: rest.data := by
    simp [String.data_append]
  constructor
  · simp only [scanErr, hd, h]
  · simp only [scanTokens, hd, h, parseLines, List.foldl_nil]

end ImmersionBot
